import Mathlib

/-!
Verification of the ShadowGraph core against its specification.

The development shallowly embeds the data layer and algorithms of the
ShadowGraph repository: the whitespace-insensitive content hasher
(`compute_ast_hash` in `indexer.py`, documented in
`docs/ARCHITECTURE.md`), the SQLite-backed store (`schema.sql`,
`database.py`, and the sql.js reader `src/client/database.ts`), the
drift detector (`drift.py`), the blast-radius recursive query
(`main.py`), and the JSONL serializer / deserializer with last-write-wins
merge (`serializer.py`, `deserializer.py`).

Tables are modelled as Lean lists of rows; SQL statements become list
operations; machine behaviour such as `INSERT OR REPLACE` applying the
`DEFAULT CURRENT_TIMESTAMP` clause is made explicit by threading a `now`
argument.  Fallible operations return `Except`.
-/

namespace Shadowgraph

/-! ## SHA-256 over byte lists

`compute_ast_hash` and the serializer sync ids call `hashlib.sha256`.
We implement SHA-256 executably on `Nat` bytes, with 32-bit overflow
written as explicit reduction modulo `2 ^ 32`.
-/

/-- Reduce to a 32-bit word. -/
def w32 (x : Nat) : Nat := x % 4294967296

/-- Right rotation of a 32-bit word by `n` bits. -/
def rotr32 (n x : Nat) : Nat := w32 ((x >>> n) ||| (x <<< (32 - n)))

/-- The 64 SHA-256 round constants of FIPS 180-4, written in decimal. -/
def sha256K : List Nat :=
  [1116352408, 1899447441, 3049323471, 3921009573, 961987163,
   1508970993, 2453635748, 2870763221, 3624381080, 310598401,
   607225278, 1426881987, 1925078388, 2162078206, 2614888103,
   3248222580, 3835390401, 4022224774, 264347078, 604807628,
   770255983, 1249150122, 1555081692, 1996064986, 2554220882,
   2821834349, 2952996808, 3210313671, 3336571891, 3584528711,
   113926993, 338241895, 666307205, 773529912, 1294757372,
   1396182291, 1695183700, 1986661051, 2177026350, 2456956037,
   2730485921, 2820302411, 3259730800, 3345764771, 3516065817,
   3600352804, 4094571909, 275423344, 430227734, 506948616,
   659060556, 883997877, 958139571, 1322822218, 1537002063,
   1747873779, 1955562222, 2024104815, 2227730452, 2361852424,
   2428436474, 2756734187, 3204031479, 3329325298]

/-- The eight SHA-256 initial hash words of FIPS 180-4, in decimal. -/
def sha256H0 : List Nat :=
  [1779033703, 3144134277, 1013904242, 2773480762, 1359893119,
   2600822924, 528734635, 1541459225]

/-- Big sigma-0 bit mix. -/
def bigS0 (x : Nat) : Nat := rotr32 2 x ^^^ rotr32 13 x ^^^ rotr32 22 x

/-- Big sigma-1 bit mix. -/
def bigS1 (x : Nat) : Nat := rotr32 6 x ^^^ rotr32 11 x ^^^ rotr32 25 x

/-- Small sigma-0 bit mix. -/
def smallS0 (x : Nat) : Nat := rotr32 7 x ^^^ rotr32 18 x ^^^ (x >>> 3)

/-- Small sigma-1 bit mix. -/
def smallS1 (x : Nat) : Nat := rotr32 17 x ^^^ rotr32 19 x ^^^ (x >>> 10)

/-- SHA-256 choice function; the complement is taken inside 32 bits. -/
def chF (x y z : Nat) : Nat := (x &&& y) ^^^ ((x ^^^ 0xffffffff) &&& z)

/-- SHA-256 majority function. -/
def majF (x y z : Nat) : Nat := (x &&& y) ^^^ (x &&& z) ^^^ (y &&& z)

/-- The bit length of the message as eight big-endian bytes. -/
def lenBytes64 (bits : Nat) : List Nat :=
  (List.range 8).map (fun i => (bits >>> (8 * (7 - i))) % 256)

/-- SHA-256 padding: append `0x80`, zero bytes to 56 mod 64, then the length. -/
def padMessage (msg : List Nat) : List Nat :=
  let z := (119 - msg.length % 64) % 64
  msg ++ 0x80 :: List.replicate z 0 ++ lenBytes64 (8 * msg.length)

/-- Group bytes into big-endian 32-bit words. -/
def bytesToWords : List Nat → List Nat
  | a :: b :: c :: d :: rest => (((a * 256 + b) * 256 + c) * 256 + d) :: bytesToWords rest
  | _ => []

/-- Split a word list into 16-word blocks. -/
def toBlocks (ws : List Nat) : List (List Nat) :=
  match ws with
  | [] => []
  | w :: rest => (w :: rest.take 15) :: toBlocks (rest.drop 15)
termination_by ws.length
decreasing_by simp [List.length_drop]; omega

/-- Word `i` of the message schedule of one block. -/
def wAt (block : List Nat) (i : Nat) : Nat :=
  if _h : i < 16 then block.getD i 0
  else
    w32 (smallS1 (wAt block (i - 2)) + wAt block (i - 7) +
         smallS0 (wAt block (i - 15)) + wAt block (i - 16))
termination_by i
decreasing_by all_goals omega

/-- One round of the SHA-256 compression function. -/
def compressRound (block : List Nat) (st : List Nat) (t : Nat) : List Nat :=
  match st with
  | [a, b, c, d, e, f, g, h] =>
    let t1 := w32 (h + bigS1 e + chF e f g + sha256K.getD t 0 + wAt block t)
    let t2 := w32 (bigS0 a + majF a b c)
    [w32 (t1 + t2), a, b, c, w32 (d + t1), e, f, g]
  | other => other

/-- Compress one 16-word block into the running hash state. -/
def compressBlock (hs : List Nat) (block : List Nat) : List Nat :=
  let fin := (List.range 64).foldl (compressRound block) hs
  (hs.zip fin).map (fun p => w32 (p.1 + p.2))

/-- SHA-256 state after absorbing the whole message. -/
def sha256Words (msg : List Nat) : List Nat :=
  (toBlocks (bytesToWords (padMessage msg))).foldl compressBlock sha256H0

/-- A 32-bit word as four big-endian bytes. -/
def wordToBytes (x : Nat) : List Nat :=
  [(x >>> 24) % 256, (x >>> 16) % 256, (x >>> 8) % 256, x % 256]

/-- SHA-256 digest (32 bytes) of a byte list. -/
def sha256 (msg : List Nat) : List Nat :=
  ((sha256Words msg).map wordToBytes).flatten

/-- Lower-case hex character for a value below 16. -/
def hexChar (n : Nat) : Char :=
  if n < 10 then Char.ofNat (48 + n) else Char.ofNat (87 + n)

/-- Two-character lower-case hex rendering of a byte. -/
def byteToHex (b : Nat) : String := String.mk [hexChar (b / 16), hexChar (b % 16)]

/-- Lower-case hex digest string, as Python `hexdigest()`. -/
def hexDigest (bs : List Nat) : String := String.join (bs.map byteToHex)

/-- UTF-8 bytes of a string, as Python `str.encode()`. -/
def utf8Bytes (s : String) : List Nat := s.toUTF8.toList.map (fun b => b.toNat)

/-! ## The Hasher

`indexer.py`:

```
def compute_ast_hash(node_text: str) -> str:
    normalized = re.sub(r"\s+", "", node_text)
    return hashlib.sha256(normalized.encode()).hexdigest()
```
-/

/-- Code points matched by the Python regex class `\s` on `str`:
ASCII whitespace, the C1 separators, and the Unicode space separators. -/
def pyWhitespaceCodes : List Nat :=
  [0x09, 0x0A, 0x0B, 0x0C, 0x0D, 0x20, 0x1C, 0x1D, 0x1E, 0x1F, 0x85, 0xA0,
   0x1680, 0x2000, 0x2001, 0x2002, 0x2003, 0x2004, 0x2005, 0x2006, 0x2007,
   0x2008, 0x2009, 0x200A, 0x2028, 0x2029, 0x202F, 0x205F, 0x3000]

/-- Whether a character is whitespace in the sense of Python `\s`. -/
def isPyWhitespace (c : Char) : Bool := c.toNat ∈ pyWhitespaceCodes

/-- Drop every whitespace character, keeping the rest in order. -/
def stripWhitespaceChars (cs : List Char) : List Char :=
  cs.filter (fun c => !(isPyWhitespace c))

/-- `re.sub(r"\s+", "", node_text)`: delete all whitespace from the text. -/
def stripWhitespace (s : String) : String := String.mk (stripWhitespaceChars s.data)

/-- `compute_ast_hash`: SHA-256 hex digest of the whitespace-stripped text. -/
def computeAstHash (s : String) : String :=
  hexDigest (sha256 (utf8Bytes (stripWhitespace s)))

/-- One insertion of a whitespace character somewhere in a character list. -/
def WsInsertStep (a b : List Char) : Prop :=
  ∃ u v c, isPyWhitespace c = true ∧ a = u ++ v ∧ b = u ++ c :: v

/-- Insertion or deletion of one whitespace character. -/
def WsEditStep (a b : List Char) : Prop := WsInsertStep a b ∨ WsInsertStep b a

/-- A whitespace-only transform: any finite sequence of whitespace
insertions and deletions (changing a whitespace character is a deletion
followed by an insertion). -/
def WsTransform (s t : String) : Prop :=
  Relation.ReflTransGen WsEditStep s.data t.data

/-! ## The AnchorStore

`src/server/schema.sql` defines three tables.  We model each table as a
list of rows.  The `vector BLOB` column of `nodes` is never written or
read by any operation in the repository and is omitted.  `created_at`
has `DEFAULT CURRENT_TIMESTAMP`; statements that omit the column obtain
the default, made explicit here by a `now` argument.
-/

/-- A row of the `nodes` table. -/
structure NodeRow where
  id : String
  type : String
  content : String
  path : Option String
  created_at : Option String
deriving DecidableEq, Repr

/-- A row of the `anchors` table.  The primary key in `schema.sql` is
`(node_id, file_path, symbol_name)`; there is no uniqueness constraint
on `(file_path, symbol_name)` alone. -/
structure AnchorRow where
  node_id : String
  file_path : String
  symbol_name : String
  ast_hash : String
  start_line : Int
  status : String
deriving DecidableEq, Repr

/-- A row of the `edges` table; primary key `(source_id, target_id, relation)`. -/
structure EdgeRow where
  source_id : String
  target_id : String
  relation : String
deriving DecidableEq, Repr

/-- The whole store: one SQLite database file. -/
structure Store where
  nodes : List NodeRow
  anchors : List AnchorRow
  edges : List EdgeRow
deriving DecidableEq, Repr

/-- A store with empty tables. -/
def emptyStore : Store := ⟨[], [], []⟩

/-- `SELECT * FROM nodes WHERE id = ?` (first match). -/
def lookupNode (st : Store) (id : String) : Option NodeRow :=
  st.nodes.find? (fun n => n.id == id)

/-- `database.py` `upsert_node`: `INSERT OR REPLACE INTO nodes`, the
column list omitting `created_at`.  `REPLACE` deletes any row with the
same id and inserts a fresh row, whose `created_at` therefore takes the
`DEFAULT CURRENT_TIMESTAMP` value `now`.  (With foreign keys enabled the
implicit delete also fires `ON DELETE CASCADE`; no claim below exercises
that, since the index path recreates the anchor immediately.) -/
def upsertNode (now id ty content : String) (st : Store) : Store :=
  { st with nodes := st.nodes.filter (fun n => !(n.id == id)) ++
      [⟨id, ty, content, none, some now⟩] }

/-- The primary-key predicate of the `anchors` table. -/
def anchorKeyMatch (node_id file symbol : String) (a : AnchorRow) : Bool :=
  a.node_id == node_id && a.file_path == file && a.symbol_name == symbol

/-- `database.py` `upsert_anchor`: `INSERT OR REPLACE INTO anchors`,
keyed by the schema primary key `(node_id, file_path, symbol_name)`;
`status` is omitted and takes its default `VALID`. -/
def upsertAnchor (node_id file symbol hash : String) (line : Int) (st : Store) : Store :=
  { st with anchors := st.anchors.filter (fun a => !(anchorKeyMatch node_id file symbol a)) ++
      [⟨node_id, file, symbol, hash, line, "VALID"⟩] }

/-- Set the status of one anchor row to `STALE` when its key matches. -/
def staleRow (node_id file symbol : String) (a : AnchorRow) : AnchorRow :=
  if anchorKeyMatch node_id file symbol a then { a with status := "STALE" } else a

/-- `database.py` `mark_stale(node_id, file_path, symbol_name)`:
`UPDATE anchors SET status = STALE` for the matching key. -/
def markStale (node_id file symbol : String) (st : Store) : Store :=
  { st with anchors := st.anchors.map (staleRow node_id file symbol) }

/-- Whether an edge with this key is present. -/
def edgePresent (st : Store) (source target rel : String) : Bool :=
  st.edges.any (fun e => e.source_id == source && e.target_id == target && e.relation == rel)

/-- Modelled from the spec: `database.py` `add_edge` is not under
`src/`; `docs/ARCHITECTURE.md` documents it as `INSERT OR IGNORE INTO
edges` executed with `PRAGMA foreign_keys=ON`, and the spec states that
an edge whose source or target node is absent fails with `NotFound` and
leaves the store unchanged, while a duplicate insert is a no-op. -/
def addEdge (st : Store) (source target rel : String) : Except String Store :=
  if (lookupNode st source).isNone || (lookupNode st target).isNone then
    Except.error "NotFound"
  else if edgePresent st source target rel then Except.ok st
  else Except.ok { st with edges := st.edges ++ [⟨source, target, rel⟩] }

/-- The store after an `add_edge` attempt: a failed statement leaves the
database untouched. -/
def addEdgeStore (st : Store) (source target rel : String) : Store :=
  match addEdge st source target rel with
  | Except.ok st2 => st2
  | Except.error _ => st

/-- `SELECT * FROM anchors WHERE file_path = ?`. -/
def anchorsForFile (st : Store) (file : String) : List AnchorRow :=
  st.anchors.filter (fun a => a.file_path == file)

/-! ## Indexing and drift detection

`main.py` `index_file` upserts, for each extracted symbol, a
`CODE_BLOCK` node with id `code:<file>:<symbol>` and an anchor carrying
the `compute_ast_hash` of the symbol text.  `drift.py` `check_drift`
re-extracts the file and marks every stored anchor stale whose symbol is
gone or whose freshly computed hash differs from the stored one.
-/

/-- One symbol produced by the external extractor: kind-prefixed name,
raw text, start line. -/
structure RawSymbol where
  symbol_name : String
  content : String
  start_line : Int
deriving DecidableEq, Repr

/-- The node id `index_file` derives for a symbol. -/
def codeNodeId (file symbol : String) : String := "code:" ++ file ++ ":" ++ symbol

/-- `main.py` `index_file`: upsert node and anchor for each extracted
symbol, the anchor hash computed by `compute_ast_hash`. -/
def indexFile (now file : String) (syms : List RawSymbol) (st : Store) : Store :=
  syms.foldl
    (fun acc sym =>
      upsertAnchor (codeNodeId file sym.symbol_name) file sym.symbol_name
        (computeAstHash sym.content) sym.start_line
        (upsertNode now (codeNodeId file sym.symbol_name) "CODE_BLOCK" sym.content acc))
    st

/-- Names and fresh hashes of the current extraction. -/
def currentHashes (syms : List RawSymbol) : List (String × String) :=
  syms.map (fun s => (s.symbol_name, computeAstHash s.content))

/-- The staleness test of `check_drift` for one stored anchor:
`if not current or current[ast_hash] != stored.ast_hash`. -/
def driftCond (current : List (String × String)) (a : AnchorRow) : Bool :=
  match current.find? (fun p => p.1 == a.symbol_name) with
  | none => true
  | some p => !(p.2 == a.ast_hash)

/-- `drift.py` `check_drift`: walk the stored anchors of the file
(fetched once, before any update), mark the drifted ones stale, and
report their symbols. -/
def checkDrift (file : String) (syms : List RawSymbol) (st : Store) :
    Store × List String :=
  let current := currentHashes syms
  (anchorsForFile st file).foldl
    (fun acc a =>
      if driftCond current a then
        (markStale a.node_id file a.symbol_name acc.1, acc.2 ++ [a.symbol_name])
      else acc)
    (st, [])

/-! ## Blast radius

`main.py` `query_blast_radius` runs a recursive CTE built with
`UNION ALL`: level 0 is the origin row, and every row of level `k < depth`
contributes one row per outgoing edge (the target, with the edge
relation) and one row per incoming edge (the source, reported as
`IMPACTS`).  `UNION ALL` keeps duplicates; there is no visited set.
-/

/-- One row of the `neighborhood` CTE. -/
structure BRRow where
  id : String
  level : Nat
  relation : String
deriving DecidableEq, Repr

/-- The rows one CTE row contributes at the next level: targets of
outgoing edges, then sources of incoming edges. -/
def brExpand (edges : List EdgeRow) (r : BRRow) : List BRRow :=
  (edges.filter (fun e => e.source_id == r.id)).map
      (fun e => ⟨e.target_id, r.level + 1, e.relation⟩) ++
    (edges.filter (fun e => e.target_id == r.id)).map
      (fun e => ⟨e.source_id, r.level + 1, "IMPACTS"⟩)

/-- All CTE rows of a given level. -/
def brLevels (edges : List EdgeRow) (origin : String) : Nat → List BRRow
  | 0 => [⟨origin, 0, "ORIGIN"⟩]
  | k + 1 => ((brLevels edges origin k).map (brExpand edges)).flatten

/-- `query_blast_radius`: every CTE row with level at most `depth`
(rows of level `depth` are not expanded further, because the recursive
arms require `nb.level < depth`). -/
def queryBlastRadius (edges : List EdgeRow) (origin : String) (depth : Nat) :
    List BRRow :=
  ((List.range (depth + 1)).map (brLevels edges origin)).flatten

/-! ## Serializer and deserializer with merge

`serializer.py` writes one JSON object per line: node records
`{id, kind, content, created_at, sync_id}` then edge records
`{source_id, target_id, relation, sync_id}`, where `sync_id` is the
SHA-256 of `id + content` for nodes and of `source_id + target_id` for
edges.  `deserializer.py` parses the lines, inserts unknown nodes and
applies last-write-wins on known ones
(`if incoming_obj[created_at] > existing[created_at]`, a lexicographic
string comparison).
-/

/-- A serialized node record, the decoded shape of one JSONL line. -/
structure SerNode where
  id : String
  kind : String
  content : String
  created_at : String
  sync_id : String
deriving DecidableEq, Repr

/-- A serialized edge record. -/
structure SerEdge where
  source_id : String
  target_id : String
  relation : String
  sync_id : String
deriving DecidableEq, Repr

/-- A decoded JSONL line. -/
inductive SerRec where
  | nodeRec (n : SerNode)
  | edgeRec (e : SerEdge)
deriving DecidableEq, Repr

/-- `serializer.py`: `sync_id = sha256((node[id] + node[content]).encode()).hexdigest()`. -/
def nodeSyncId (id content : String) : String :=
  hexDigest (sha256 (utf8Bytes (id ++ content)))

/-- `serializer.py`: `sync_id = sha256((edge[source_id] + edge[target_id]).encode()).hexdigest()`. -/
def edgeSyncId (source target : String) : String :=
  hexDigest (sha256 (utf8Bytes (source ++ target)))

/-- Node output order: sorted by id. -/
def nodeLe (a b : NodeRow) : Prop := a.id ≤ b.id

instance : DecidableRel nodeLe := fun a b => inferInstanceAs (Decidable (a.id ≤ b.id))

instance : IsTotal NodeRow nodeLe := ⟨fun a b => le_total a.id b.id⟩

instance : IsTrans NodeRow nodeLe := ⟨fun _ _ _ h1 h2 => le_trans h1 h2⟩

/-- Edge output order: lexicographic on `(source_id, target_id, relation)`. -/
def edgeLe (a b : EdgeRow) : Prop :=
  a.source_id < b.source_id ∨
    (a.source_id = b.source_id ∧
      (a.target_id < b.target_id ∨
        (a.target_id = b.target_id ∧ a.relation ≤ b.relation)))

instance : DecidableRel edgeLe := fun a b => by unfold edgeLe; infer_instance

instance : IsTotal EdgeRow edgeLe := by
  constructor
  intro a b
  rcases lt_trichotomy a.source_id b.source_id with h | h | h
  · exact Or.inl (Or.inl h)
  · rcases lt_trichotomy a.target_id b.target_id with h2 | h2 | h2
    · exact Or.inl (Or.inr ⟨h, Or.inl h2⟩)
    · rcases le_total a.relation b.relation with h3 | h3
      · exact Or.inl (Or.inr ⟨h, Or.inr ⟨h2, h3⟩⟩)
      · exact Or.inr (Or.inr ⟨h.symm, Or.inr ⟨h2.symm, h3⟩⟩)
    · exact Or.inr (Or.inr ⟨h.symm, Or.inl h2⟩)
  · exact Or.inr (Or.inl h)

instance : IsTrans EdgeRow edgeLe := by
  constructor
  intro a b c hab hbc
  rcases hab with h1 | ⟨e1, h1⟩
  · rcases hbc with h2 | ⟨e2, _⟩
    · exact Or.inl (lt_trans h1 h2)
    · exact Or.inl (e2 ▸ h1)
  · rcases hbc with h2 | ⟨e2, h2⟩
    · exact Or.inl (e1 ▸ h2)
    · refine Or.inr ⟨e1.trans e2, ?_⟩
      rcases h1 with h1 | ⟨f1, h1⟩
      · rcases h2 with h2 | ⟨f2, _⟩
        · exact Or.inl (lt_trans h1 h2)
        · exact Or.inl (f2 ▸ h1)
      · rcases h2 with h2 | ⟨f2, h2⟩
        · exact Or.inl (f1 ▸ h2)
        · exact Or.inr ⟨f1.trans f2, le_trans h1 h2⟩

/-- Modelled from the spec: `serializer.py` is not under `src/` and the
`docs/ARCHITECTURE.md` sketch elides the row order of `get_all_nodes`;
the spec fixes a stable total order, nodes sorted by id.  Fields follow
the sketch: kind, content, `created_at` (never `NULL` once written, the
`getD` default is unreachable under the round-trip hypotheses) and the
recomputed sync id. -/
def serNodeOf (n : NodeRow) : SerNode :=
  ⟨n.id, n.type, n.content, n.created_at.getD "", nodeSyncId n.id n.content⟩

/-- The serialized form of one stored edge. -/
def serEdgeOf (e : EdgeRow) : SerEdge :=
  ⟨e.source_id, e.target_id, e.relation, edgeSyncId e.source_id e.target_id⟩

/-- `serialize_to_jsonl`, record level: node records sorted by id, then
edge records sorted by `(source_id, target_id, relation)`. -/
def serializeRecs (st : Store) : List SerRec :=
  ((st.nodes.insertionSort nodeLe).map (fun n => SerRec.nodeRec (serNodeOf n))) ++
    ((st.edges.insertionSort edgeLe).map (fun e => SerRec.edgeRec (serEdgeOf e)))

/-- JSON string escaping for the two characters that need it in the
fields we emit. -/
def escapeJson (s : String) : String :=
  String.mk (s.data.foldr
    (fun c acc => if c == '\\' || c == '"' then '\\' :: c :: acc else c :: acc) [])

/-- A quoted JSON string literal. -/
def jsonStr (s : String) : String := "\"" ++ escapeJson s ++ "\""

/-- One node line of the JSONL file. -/
def renderNodeLine (n : SerNode) : String :=
  "\x7b\"id\": " ++ jsonStr n.id ++ ", \"kind\": " ++ jsonStr n.kind ++
    ", \"content\": " ++ jsonStr n.content ++ ", \"created_at\": " ++ jsonStr n.created_at ++
    ", \"sync_id\": " ++ jsonStr n.sync_id ++ "\x7d"

/-- One edge line of the JSONL file. -/
def renderEdgeLine (e : SerEdge) : String :=
  "\x7b\"source_id\": " ++ jsonStr e.source_id ++ ", \"target_id\": " ++ jsonStr e.target_id ++
    ", \"relation\": " ++ jsonStr e.relation ++ ", \"sync_id\": " ++ jsonStr e.sync_id ++ "\x7d"

/-- Render one decoded record back to its line. -/
def renderLine : SerRec → String
  | SerRec.nodeRec n => renderNodeLine n
  | SerRec.edgeRec e => renderEdgeLine e

/-- `serialize_to_jsonl`: the lines of the output file, in order. -/
def serializeLines (st : Store) : List String := (serializeRecs st).map renderLine

/-- The node records of a decoded batch, in file order. -/
def nodeRecsOf (recs : List SerRec) : List SerNode :=
  recs.filterMap (fun r => match r with | SerRec.nodeRec n => some n | _ => none)

/-- The edge records of a decoded batch, in file order. -/
def edgeRecsOf (recs : List SerRec) : List SerEdge :=
  recs.filterMap (fun r => match r with | SerRec.edgeRec e => some e | _ => none)

/-- Python dict insertion: first occurrence fixes the position, a later
record with the same id overwrites the value. -/
def dictInsert (acc : List SerNode) (r : SerNode) : List SerNode :=
  if acc.any (fun x => x.id == r.id) then
    acc.map (fun x => if x.id == r.id then r else x)
  else acc ++ [r]

/-- `incoming[obj[id]] = obj` over the whole batch. -/
def dictById (rs : List SerNode) : List SerNode := rs.foldl dictInsert []

/-- Lexicographic strict comparison on code-point lists, as CPython
compares `str` values. -/
def strLtB : List Char → List Char → Bool
  | [], [] => false
  | [], _ :: _ => true
  | _ :: _, [] => false
  | a :: as, b :: bs =>
    if a.toNat < b.toNat then true
    else if b.toNat < a.toNat then false
    else strLtB as bs

/-- The Python `<` on strings. -/
def pyStrLt (a b : String) : Bool := strLtB a.data b.data

/-- The Python comparison `incoming_obj[created_at] > existing[created_at]`
(lexicographic on ISO-8601 strings; a local row that never received a
timestamp is treated as oldest). -/
def tsAfter (incoming : String) (existing : Option String) : Bool :=
  match existing with
  | some t => pyStrLt t incoming
  | none => true

/-- Merge one incoming node record: insert if unknown, otherwise
last-write-wins on `created_at`; on a win the incoming content, kind and
timestamp replace the local ones, otherwise the local row is kept
unchanged (the sketch has no tie branch and never reads `sync_id`;
`nodes` in `src/server/schema.sql` has no `sync_id` column to compare
against). -/
def mergeNodeRec (st : Store) (r : SerNode) : Store :=
  match lookupNode st r.id with
  | none => { st with nodes := st.nodes ++ [⟨r.id, r.kind, r.content, none, some r.created_at⟩] }
  | some ex =>
    if tsAfter r.created_at ex.created_at then
      let repl := fun (n : NodeRow) =>
        if n.id == r.id then ⟨n.id, r.kind, r.content, n.path, some r.created_at⟩ else n
      { st with nodes := st.nodes.map repl }
    else st

/-- Modelled from the spec: `deserializer.py` is not under `src/` and
the `docs/ARCHITECTURE.md` sketch shows only the node branch; the spec
states that edge records are merged by set union on the relation triple. -/
def mergeEdgeRec (st : Store) (r : SerEdge) : Store :=
  if edgePresent st r.source_id r.target_id r.relation then st
  else { st with edges := st.edges ++ [⟨r.source_id, r.target_id, r.relation⟩] }

/-- `deserialize_from_jsonl` in merge mode: gather the node records into
the `incoming` dict, merge them, then union the edge records (nodes
first, so no edge is merged ahead of its endpoints). -/
def deserializeMerge (st : Store) (recs : List SerRec) : Store :=
  ((dictById (nodeRecsOf recs)).foldl mergeNodeRec st |> (edgeRecsOf recs).foldl mergeEdgeRec)

/-! ## The sql.js reader (`src/client/database.ts`)

The extension reads through a nullable handle `db`; every read
projection returns `[]` when the handle is not initialized, while the
one writer `addThought` throws.
-/

/-- A returned thought row; `created_at` is the `COALESCE(n.created_at, '')`
projection of the query. -/
structure ThoughtRow where
  id : String
  content : String
  created_at : String
deriving DecidableEq, Repr

/-- The triple join of `getThoughtsForSymbol`: thought nodes reached
through an edge whose source carries an anchor for the file and symbol;
one row per matching `(node, edge, anchor)` combination, as in SQL. -/
def thoughtJoinRows (st : Store) (file symbol : String) : List NodeRow :=
  (st.nodes.filter (fun n => n.type == "THOUGHT")).flatMap
    (fun n =>
      ((st.edges.filter (fun e => e.target_id == n.id)).flatMap
        (fun e =>
          (st.anchors.filter (fun a =>
              a.node_id == e.source_id && a.file_path == file &&
                a.symbol_name == symbol)).map (fun _ => n))))

/-- `ORDER BY n.created_at DESC`: newest first; a `NULL` timestamp sorts
with the empty string, its coalesced projection. -/
def createdDesc (a b : NodeRow) : Prop :=
  b.created_at.getD "" ≤ a.created_at.getD ""

instance : DecidableRel createdDesc :=
  fun a b => inferInstanceAs (Decidable (b.created_at.getD "" ≤ a.created_at.getD ""))

instance : IsTotal NodeRow createdDesc :=
  ⟨fun a b => le_total (b.created_at.getD "") (a.created_at.getD "")⟩

instance : IsTrans NodeRow createdDesc := ⟨fun _ _ _ h1 h2 => le_trans h2 h1⟩

/-- The `SELECT` of `getThoughtsForSymbol`, on an initialized handle. -/
def thoughtsQuery (st : Store) (file symbol : String) : List ThoughtRow :=
  ((thoughtJoinRows st file symbol).insertionSort createdDesc).map
    (fun n => ⟨n.id, n.content, n.created_at.getD ""⟩)

/-- `getThoughtsForSymbol`: `[]` when `this.db` is null. -/
def tsGetThoughtsForSymbol (db : Option Store) (file symbol : String) : List ThoughtRow :=
  match db with
  | none => []
  | some st => thoughtsQuery st file symbol

/-- `getAnchorsForFile`: `[]` when `this.db` is null. -/
def tsGetAnchorsForFile (db : Option Store) (file : String) : List AnchorRow :=
  match db with
  | none => []
  | some st => anchorsForFile st file

/-- `getStaleAnchors`: `[]` when `this.db` is null. -/
def tsGetStaleAnchors (db : Option Store) (file : String) : List AnchorRow :=
  match db with
  | none => []
  | some st => st.anchors.filter (fun a => a.file_path == file && a.status == "STALE")

/-- `SELECT DISTINCT`, keeping the first occurrence of each value. -/
def distinctFirst (l : List String) : List String :=
  l.foldl (fun acc s => if acc.contains s then acc else acc ++ [s]) []

/-- `getSymbolNames`: `[]` when `this.db` is null. -/
def tsGetSymbolNames (db : Option Store) (file : String) : List String :=
  match db with
  | none => []
  | some st => distinctFirst ((anchorsForFile st file).map (fun a => a.symbol_name))

/-- `addThought`: throws when `this.db` is null; otherwise inserts the
thought node (`INSERT OR REPLACE`) and a `HAS_THOUGHT` edge
(`INSERT OR IGNORE`, sql.js runs without `PRAGMA foreign_keys=ON`, so
no endpoint check happens here).  The random uuid suffix of the thought
id is passed in. -/
def tsAddThought (now : String) (db : Option Store)
    (file symbol text uuid : String) : Except String (Store × String) :=
  match db with
  | none => Except.error "Database not initialized"
  | some st =>
    let thoughtId := "thought:" ++ uuid
    let st1 := upsertNode now thoughtId "THOUGHT" text st
    let st2 :=
      if edgePresent st1 (codeNodeId file symbol) thoughtId "HAS_THOUGHT" then st1
      else { st1 with edges := st1.edges ++ [⟨codeNodeId file symbol, thoughtId, "HAS_THOUGHT"⟩] }
    Except.ok (st2, thoughtId)

/-! ## Derived definitions used by the statements -/

/-- The primary key of an anchor row. -/
def anchorKey (a : AnchorRow) : String × String × String :=
  (a.node_id, a.file_path, a.symbol_name)

/-- The primary key of an edge row. -/
def edgeKey (e : EdgeRow) : String × String × String :=
  (e.source_id, e.target_id, e.relation)

/-- An anchor row with its status set to `STALE`. -/
def setStale (a : AnchorRow) : AnchorRow := { a with status := "STALE" }

/-- Look up the anchor with the given primary key (first match). -/
def findAnchorPK (st : Store) (node_id file symbol : String) : Option AnchorRow :=
  st.anchors.find? (anchorKeyMatch node_id file symbol)

/-- The node row a fresh insert of a serialized record produces. -/
def nodeOfRec (r : SerNode) : NodeRow := ⟨r.id, r.kind, r.content, none, some r.created_at⟩

/-- The edge row a fresh union of a serialized record produces. -/
def edgeOfRec (r : SerEdge) : EdgeRow := ⟨r.source_id, r.target_id, r.relation⟩

/-- The output order of serialized edge records: lexicographic on
`(source_id, target_id, relation)`. -/
def serEdgeLe (a b : SerEdge) : Prop :=
  a.source_id < b.source_id ∨
    (a.source_id = b.source_id ∧
      (a.target_id < b.target_id ∨
        (a.target_id = b.target_id ∧ a.relation ≤ b.relation)))

/-- A two-node store used to instantiate theorems with hypotheses. -/
def twoNodeStore : Store :=
  ⟨[⟨"a", "CODE_BLOCK", "x", none, some "2025-06-01T00:00:00"⟩,
    ⟨"b", "THOUGHT", "y", none, some "2025-06-02T00:00:00"⟩], [], []⟩

/-- A store with two nodes and one edge, kept deliberately unsorted, to
instantiate the serialization round trip. -/
def roundTripStore : Store :=
  ⟨[⟨"b", "THOUGHT", "y", none, some "2025-06-02T00:00:00"⟩,
    ⟨"a", "CODE_BLOCK", "x", none, some "2025-06-01T00:00:00"⟩], [],
    [⟨"a", "b", "HAS_THOUGHT"⟩]⟩

/-! ## The Hasher is whitespace-insensitive (C1) -/

theorem stripWhitespaceChars_append (u v : List Char) :
    stripWhitespaceChars (u ++ v) = stripWhitespaceChars u ++ stripWhitespaceChars v := by
  simp [stripWhitespaceChars, List.filter_append]

theorem stripWhitespaceChars_wsInsert {a b : List Char} (h : WsInsertStep a b) :
    stripWhitespaceChars a = stripWhitespaceChars b := by
  obtain ⟨u, v, c, hc, rfl, rfl⟩ := h
  rw [stripWhitespaceChars_append, stripWhitespaceChars_append]
  congr 1
  simp [stripWhitespaceChars, List.filter_cons, hc]

theorem stripWhitespaceChars_wsEdits {a b : List Char}
    (h : Relation.ReflTransGen WsEditStep a b) :
    stripWhitespaceChars a = stripWhitespaceChars b := by
  induction h with
  | refl => rfl
  | tail _ hstep ih =>
    rcases hstep with hstep | hstep
    · exact ih.trans (stripWhitespaceChars_wsInsert hstep)
    · exact ih.trans (stripWhitespaceChars_wsInsert hstep).symm

theorem stripWhitespace_wsTransform {s t : String} (h : WsTransform s t) :
    stripWhitespaceChars s.data = stripWhitespaceChars t.data :=
  stripWhitespaceChars_wsEdits h

/-- C1: `compute_ast_hash` strips every whitespace character before
hashing, so any whitespace-only transform of the text (insertions,
deletions, and hence changes of whitespace) leaves the digest unchanged. -/
theorem c1_digest_whitespace_invariant (s t : String) (h : WsTransform s t) :
    computeAstHash s = computeAstHash t := by
  unfold computeAstHash stripWhitespace
  rw [stripWhitespace_wsTransform h]

/-- Witness for C1: reformatting `x=1` to `x = 1` is a whitespace-only
transform, so the two digests agree. -/
theorem c1_digest_whitespace_invariant_witness :
    WsTransform "x=1" "x = 1" ∧ computeAstHash "x=1" = computeAstHash "x = 1" := by
  have h1 : WsEditStep "x=1".data "x =1".data :=
    Or.inl ⟨[ 'x'], [ '=', '1'], ' ', by decide, by decide, by decide⟩
  have h2 : WsEditStep "x =1".data "x = 1".data :=
    Or.inl ⟨[ 'x', ' ', '='], [ '1'], ' ', by decide, by decide, by decide⟩
  have ht : WsTransform "x=1" "x = 1" :=
    Relation.ReflTransGen.tail (Relation.ReflTransGen.single h1) h2
  exact ⟨ht, c1_digest_whitespace_invariant _ _ ht⟩

/-! ## Blast radius (C3) -/

theorem brLevels_level_eq (edges : List EdgeRow) (origin : String) :
    ∀ k, ∀ r ∈ brLevels edges origin k, r.level = k := by
  intro k
  induction k with
  | zero => intro r hr; simp [brLevels] at hr; simp [hr]
  | succ k ih =>
    intro r hr
    simp only [brLevels, List.mem_flatten, List.mem_map] at hr
    obtain ⟨_, ⟨r2, hr2, rfl⟩, hr⟩ := hr
    simp only [brExpand, List.mem_append, List.mem_map, List.mem_filter] at hr
    rcases hr with ⟨e, _, rfl⟩ | ⟨e, _, rfl⟩ <;> simp [ih r2 hr2]

/-- C3 (amended): the recursive CTE of `query_blast_radius` terminates
on every graph, cyclic or not, and for every finite depth: its result is
the finite list of walk endpoints whose levels never exceed `depth`, and
it always contains the origin row.  (Duplicate nodes, however, can occur:
see the counterexample.) -/
theorem c3_query_terminates_and_is_depth_bounded
    (edges : List EdgeRow) (origin : String) (depth : Nat) :
    (⟨origin, 0, "ORIGIN"⟩ : BRRow) ∈ queryBlastRadius edges origin depth ∧
      ∀ r ∈ queryBlastRadius edges origin depth, r.level ≤ depth := by
  constructor
  · simp only [queryBlastRadius, List.mem_flatten, List.mem_map]
    exact ⟨brLevels edges origin 0, ⟨0, by simp, rfl⟩, by simp [brLevels]⟩
  · intro r hr
    simp only [queryBlastRadius, List.mem_flatten, List.mem_map] at hr
    obtain ⟨_, ⟨k, hk, rfl⟩, hr⟩ := hr
    rw [brLevels_level_eq edges origin k r hr]
    simp at hk
    omega

/-- Witness for C3 (amended): on the two-cycle
`charge DependsOn convert DependsOn charge` with depth 1 the query
contains the origin and every row has level at most 1. -/
theorem c3_query_terminates_and_is_depth_bounded_witness :
    (⟨"charge", 0, "ORIGIN"⟩ : BRRow) ∈
        queryBlastRadius [⟨"charge", "convert", "DEPENDS_ON"⟩,
          ⟨"convert", "charge", "DEPENDS_ON"⟩] "charge" 1 ∧
      (⟨"convert", 1, "IMPACTS"⟩ : BRRow) ∈
        queryBlastRadius [⟨"charge", "convert", "DEPENDS_ON"⟩,
          ⟨"convert", "charge", "DEPENDS_ON"⟩] "charge" 1 ∧
      ∀ r ∈ queryBlastRadius [⟨"charge", "convert", "DEPENDS_ON"⟩,
          ⟨"convert", "charge", "DEPENDS_ON"⟩] "charge" 1, r.level ≤ 1 :=
  ⟨(c3_query_terminates_and_is_depth_bounded _ "charge" 1).1, by decide,
    (c3_query_terminates_and_is_depth_bounded
      [⟨"charge", "convert", "DEPENDS_ON"⟩, ⟨"convert", "charge", "DEPENDS_ON"⟩] "charge" 1).2⟩

/-- Counterexample to C3 as stated: on the cyclic graph
`charge DependsOn convert` and `convert DependsOn charge`, already at
depth 1 the `UNION ALL` CTE reports the node `convert` twice (once as a
dependency, once as a dependent); there is no visited set, so the claim
that no node appears more than once in the result is false. -/
theorem c3_duplicate_node_in_result :
    ((queryBlastRadius [⟨"charge", "convert", "DEPENDS_ON"⟩,
        ⟨"convert", "charge", "DEPENDS_ON"⟩] "charge" 1).filter
        (fun r => r.id == "convert")).length = 2 := by decide

/-! ## Node upserts and the created_at column (C7) -/

/-- C7 (code bug): `upsert_node` is `INSERT OR REPLACE INTO nodes` with
the `created_at` column omitted, so replacing an existing node makes the
fresh row take `DEFAULT CURRENT_TIMESTAMP` again: after a second upsert
of the same id at a later time, the stored `created_at` is the second
timestamp, not the preserved first one the spec (and the "sets
created_at if new" comment in `docs/ARCHITECTURE.md`) promise. -/
theorem c7_upsert_node_resets_created_at :
    (lookupNode
        (upsertNode "2025-06-02T00:00:00" "n" "THOUGHT" "b"
          (upsertNode "2025-06-01T00:00:00" "n" "THOUGHT" "a" emptyStore)) "n").map
        (fun n => n.created_at) = some (some "2025-06-02T00:00:00") := by decide

/-! ## Anchor uniqueness per (file, symbol) (C8) -/

/-- C8 (code bug): `schema.sql` gives `anchors` the primary key
`(node_id, file_path, symbol_name)` and no unique constraint on
`(file_path, symbol_name)`, although `docs/ARCHITECTURE.md` documents
`UNIQUE(file_path, symbol_name)`.  Upserting anchors for the same
`(file, symbol)` under two different node ids therefore leaves two rows
for that pair in the store. -/
theorem c8_two_anchors_for_same_file_symbol :
    ((upsertAnchor "n2" "f.py" "function:foo" "h2" 2
        (upsertAnchor "n1" "f.py" "function:foo" "h1" 1
          ⟨[⟨"n1", "CODE_BLOCK", "x", none, some "t0"⟩,
            ⟨"n2", "CODE_BLOCK", "y", none, some "t0"⟩], [], []⟩)).anchors.filter
        (fun a => a.file_path == "f.py" && a.symbol_name == "function:foo")).length = 2 := by
  decide

/-! ## Thought ordering (C9) -/

/-- C9: `getThoughtsForSymbol` orders by `created_at DESC`, so in the
returned list every earlier entry has a `created_at` at least as large
as every later one (a `NULL` timestamp is coalesced to the empty string,
the minimum). -/
theorem c9_thoughts_newest_first (st : Store) (file symbol : String) :
    (thoughtsQuery st file symbol).Pairwise
      (fun x y => y.created_at ≤ x.created_at) := by
  unfold thoughtsQuery
  exact List.Pairwise.map _ (fun a b h => h)
    (List.sorted_insertionSort createdDesc (thoughtJoinRows st file symbol))

/-! ## Uninitialized database handle (C10) -/

/-- C10: with a null `this.db` handle every read projection of
`database.ts` returns the empty list, while `addThought` throws
`Database not initialized`. -/
theorem c10_uninitialized_reads_empty_write_throws
    (now file symbol text uuid : String) :
    tsGetThoughtsForSymbol none file symbol = [] ∧
      tsGetAnchorsForFile none file = [] ∧
      tsGetStaleAnchors none file = [] ∧
      tsGetSymbolNames none file = [] ∧
      tsAddThought now none file symbol text uuid =
        Except.error "Database not initialized" :=
  ⟨rfl, rfl, rfl, rfl, rfl⟩

/-! ## addEdge: NotFound on missing endpoints, idempotent otherwise (C6) -/

/-- C6: `add_edge` on a source or target id absent from `nodes` fails
with `NotFound` and the store is unchanged; with both endpoints present
it succeeds and repeating the same insert is a no-op
(`INSERT OR IGNORE` on the `(source, target, relation)` primary key). -/
theorem c6_add_edge_notfound_and_idempotent (st : Store) (s t rel : String) :
    ((lookupNode st s = none ∨ lookupNode st t = none) →
      addEdge st s t rel = Except.error "NotFound" ∧ addEdgeStore st s t rel = st) ∧
    ((lookupNode st s).isSome → (lookupNode st t).isSome →
      ∃ st2, addEdge st s t rel = Except.ok st2 ∧ addEdge st2 s t rel = Except.ok st2) := by
  constructor
  · intro h
    have hc : ((lookupNode st s).isNone || (lookupNode st t).isNone) = true := by
      rcases h with h | h <;> simp [h]
    constructor
    · simp [addEdge, hc]
    · simp [addEdgeStore, addEdge, hc]
  · intro hs ht
    obtain ⟨v1, hv1⟩ := Option.isSome_iff_exists.mp hs
    obtain ⟨v2, hv2⟩ := Option.isSome_iff_exists.mp ht
    have hc : ((lookupNode st s).isNone || (lookupNode st t).isNone) = false := by
      simp [hv1, hv2]
    by_cases hp : edgePresent st s t rel
    · refine ⟨st, ?_, ?_⟩ <;> simp [addEdge, hc, hp]
    · refine ⟨{ st with edges := st.edges ++ [⟨s, t, rel⟩] }, ?_, ?_⟩
      · simp [addEdge, hc, hp]
      · have hc2 : ((lookupNode { st with edges := st.edges ++ [⟨s, t, rel⟩] } s).isNone ||
            (lookupNode { st with edges := st.edges ++ [⟨s, t, rel⟩] } t).isNone) = false := hc

        have hp2 : edgePresent { st with edges := st.edges ++ [⟨s, t, rel⟩] } s t rel = true := by
          simp [edgePresent, List.any_append]
        simp [addEdge, hc2, hp2]

/-- Witness for C6: on a two-node store, linking to the missing id `zz`
fails with `NotFound` leaving the store unchanged, while linking `a` to
`b` succeeds and is idempotent. -/
theorem c6_add_edge_notfound_and_idempotent_witness :
    (addEdge twoNodeStore "a" "zz" "DEPENDS_ON" = Except.error "NotFound" ∧
      addEdgeStore twoNodeStore "a" "zz" "DEPENDS_ON" = twoNodeStore) ∧
    (∃ st2, addEdge twoNodeStore "a" "b" "DEPENDS_ON" = Except.ok st2 ∧
      addEdge st2 "a" "b" "DEPENDS_ON" = Except.ok st2) :=
  ⟨(c6_add_edge_notfound_and_idempotent twoNodeStore "a" "zz" "DEPENDS_ON").1
      (Or.inr (by decide)),
    (c6_add_edge_notfound_and_idempotent twoNodeStore "a" "b" "DEPENDS_ON").2
      (by decide) (by decide)⟩

/-! ## Last-write-wins merge (C5) -/

theorem find?_map_of_pred_eq {α β : Type} (f : α → β) (p : β → Bool) (q : α → Bool)
    (hpq : ∀ a, p (f a) = q a) (l : List α) :
    (l.map f).find? p = (l.find? q).map f := by
  rw [List.find?_map]
  have hfun : p ∘ f = q := funext hpq
  rw [hfun]

theorem find?_id_replace (l : List NodeRow) (r : SerNode) (ex : NodeRow)
    (hex : l.find? (fun n => n.id == r.id) = some ex) :
    (l.map (fun n => if n.id == r.id then
        ({ id := n.id, type := r.kind, content := r.content, path := n.path,
           created_at := some r.created_at } : NodeRow) else n)).find?
        (fun n => n.id == r.id) =
      some { id := ex.id, type := r.kind, content := r.content, path := ex.path,
             created_at := some r.created_at } := by
  have hexid : (ex.id == r.id) = true :=
    List.find?_some (p := fun n => n.id == r.id) (a := ex) hex
  rw [find?_map_of_pred_eq _ _ (fun n => n.id == r.id) ?hp, hex]
  case hp =>
    intro n
    by_cases h : (n.id == r.id) <;> simp [h]
  have hexeq : ex.id = r.id := by simpa using hexid
  simp [hexeq]

/-- C5 (amended): merging an incoming node record over an existing local
node applies last-write-wins on the `created_at` strings: a strictly
later incoming timestamp replaces content, kind and timestamp; an equal
or earlier incoming timestamp leaves the store unchanged — the local
record wins every tie, and sync ids are never consulted (the local
`nodes` table of `schema.sql` does not even store one). -/
theorem c5_lww_merge (st : Store) (r : SerNode) (ex : NodeRow) (t1 : String)
    (hex : lookupNode st r.id = some ex) (ht : ex.created_at = some t1) :
    (pyStrLt t1 r.created_at = true →
      lookupNode (mergeNodeRec st r) r.id =
        some ⟨r.id, r.kind, r.content, ex.path, some r.created_at⟩) ∧
    (pyStrLt t1 r.created_at = false → mergeNodeRec st r = st) := by
  have hex2 : st.nodes.find? (fun n => n.id == r.id) = some ex := hex
  have hexid : (ex.id == r.id) = true :=
    List.find?_some (p := fun n => n.id == r.id) (a := ex) hex2
  have hexid2 : ex.id = r.id := by simpa using hexid
  constructor
  · intro hlt
    have hts : tsAfter r.created_at ex.created_at = true := by
      simp [tsAfter, ht, hlt]
    simp only [mergeNodeRec, hex, hts, if_pos]
    simp only [lookupNode]
    rw [find?_id_replace st.nodes r ex hex2, hexid2]
  · intro hge
    have hts : tsAfter r.created_at ex.created_at = false := by
      simp [tsAfter, ht, hge]
    simp [mergeNodeRec, hex, hts]

/-- Witness for C5 (amended): a later incoming record replaces the local
node; an equal-timestamp incoming record leaves the store unchanged. -/
theorem c5_lww_merge_witness :
    (lookupNode
        (mergeNodeRec ⟨[⟨"n", "THOUGHT", "a", none, some "2025-01-01"⟩], [], []⟩
          ⟨"n", "THOUGHT", "b", "2025-01-02", "s1"⟩) "n" =
      some ⟨"n", "THOUGHT", "b", none, some "2025-01-02"⟩) ∧
    (mergeNodeRec ⟨[⟨"n", "THOUGHT", "a", none, some "2025-01-01"⟩], [], []⟩
        ⟨"n", "THOUGHT", "c", "2025-01-01", "s2"⟩ =
      ⟨[⟨"n", "THOUGHT", "a", none, some "2025-01-01"⟩], [], []⟩) :=
  ⟨(c5_lww_merge ⟨[⟨"n", "THOUGHT", "a", none, some "2025-01-01"⟩], [], []⟩
        ⟨"n", "THOUGHT", "b", "2025-01-02", "s1"⟩
        ⟨"n", "THOUGHT", "a", none, some "2025-01-01"⟩ "2025-01-01"
        (by decide) rfl).1 (by decide),
    (c5_lww_merge ⟨[⟨"n", "THOUGHT", "a", none, some "2025-01-01"⟩], [], []⟩
        ⟨"n", "THOUGHT", "c", "2025-01-01", "s2"⟩
        ⟨"n", "THOUGHT", "a", none, some "2025-01-01"⟩ "2025-01-01"
        (by decide) rfl).2 (by decide)⟩

/-- Counterexample to C5 as stated: with equal `created_at` timestamps
the sketch keeps whichever version is local — merging the two divergent
stores in the two possible directions produces two different winners
from the same pair of records.  No comparison of sync ids (lexicographic
or otherwise) can produce a winner that depends on which side is local,
so the tie is not broken by comparing sync ids. -/
theorem c5_tie_keeps_local_side :
    ((deserializeMerge ⟨[⟨"n", "THOUGHT", "a", none, some "2025-01-01"⟩], [], []⟩
        [SerRec.nodeRec ⟨"n", "THOUGHT", "b", "2025-01-01", "syncB"⟩]).nodes.map
        (fun n => n.content) = ["a"]) ∧
    ((deserializeMerge ⟨[⟨"n", "THOUGHT", "b", none, some "2025-01-01"⟩], [], []⟩
        [SerRec.nodeRec ⟨"n", "THOUGHT", "a", "2025-01-01", "syncA"⟩]).nodes.map
        (fun n => n.content) = ["b"]) ∧
    ("a" : String) ≠ "b" := by decide

/-! ## Drift detection and re-indexing (C2) -/

theorem staleRow_of_keyMatch {n f s : String} {a : AnchorRow}
    (h : anchorKeyMatch n f s a = true) : staleRow n f s a = setStale a := by
  simp [staleRow, h, setStale]

theorem staleRow_of_not_keyMatch {n f s : String} {a : AnchorRow}
    (h : anchorKeyMatch n f s a = false) : staleRow n f s a = a := by
  simp [staleRow, h]

theorem anchorKeyMatch_setStale (n f s : String) (a : AnchorRow) :
    anchorKeyMatch n f s (setStale a) = anchorKeyMatch n f s a := by
  simp [anchorKeyMatch, setStale]

theorem checkDrift_foldl_anchors (current : List (String × String)) (file : String) :
    ∀ (L : List AnchorRow) (st : Store) (rep : List String),
      (L.foldl
          (fun acc a =>
            if driftCond current a then
              (markStale a.node_id file a.symbol_name acc.1, acc.2 ++ [a.symbol_name])
            else acc)
          (st, rep)).1.anchors =
        st.anchors.map (fun a2 =>
          if L.any (fun a => driftCond current a &&
              anchorKeyMatch a.node_id file a.symbol_name a2) then setStale a2 else a2) := by
  intro L
  induction L with
  | nil => intro st rep; simp
  | cons a L ih =>
    intro st rep
    rw [List.foldl_cons]
    by_cases h : driftCond current a
    · rw [if_pos h, ih]
      simp only [markStale, List.map_map]
      apply List.map_congr_left
      intro a2 _
      simp only [Function.comp]
      by_cases hk : anchorKeyMatch a.node_id file a.symbol_name a2
      · rw [staleRow_of_keyMatch hk]
        simp only [anchorKeyMatch_setStale]
        have hhead : (driftCond current a &&
            anchorKeyMatch a.node_id file a.symbol_name a2) = true := by
          simp [h, hk]
        rw [List.any_cons, hhead, Bool.true_or, if_pos rfl]
        by_cases hrest : L.any (fun x => driftCond current x &&
            anchorKeyMatch x.node_id file x.symbol_name a2)
        · rw [if_pos hrest]; rfl
        · rw [if_neg hrest]
      · have hk2 : anchorKeyMatch a.node_id file a.symbol_name a2 = false := by
          simpa using hk
        rw [staleRow_of_not_keyMatch hk2]
        rw [List.any_cons]
        simp [hk2]
    · have h2 : driftCond current a = false := by simpa using h
      rw [if_neg (by simp [h2]), ih]
      apply List.map_congr_left
      intro a2 _
      rw [List.any_cons]
      simp [h2]

theorem checkDrift_anchors (st : Store) (file : String) (syms : List RawSymbol)
    (hnd : (st.anchors.map anchorKey).Nodup) :
    (checkDrift file syms st).1.anchors =
      st.anchors.map (fun a =>
        if a.file_path == file && driftCond (currentHashes syms) a then
          setStale a
        else a) := by
  unfold checkDrift
  rw [checkDrift_foldl_anchors (currentHashes syms) file (anchorsForFile st file) st []]
  apply List.map_congr_left
  intro a2 ha2
  have hcond : ((anchorsForFile st file).any (fun a => driftCond (currentHashes syms) a &&
      anchorKeyMatch a.node_id file a.symbol_name a2)) =
      (a2.file_path == file && driftCond (currentHashes syms) a2) := by
    rw [Bool.eq_iff_iff]
    constructor
    · intro hany
      obtain ⟨x, hxmem, hx⟩ := List.any_eq_true.mp hany
      obtain ⟨hxst, hxfile⟩ := List.mem_filter.mp hxmem
      rw [Bool.and_eq_true] at hx
      obtain ⟨hxdrift, hxkey⟩ := hx
      simp only [anchorKeyMatch, Bool.and_eq_true, beq_iff_eq] at hxkey hxfile
      have hkeys : anchorKey x = anchorKey a2 := by
        simp [anchorKey, hxkey.1.1, hxkey.1.2, hxkey.2, hxfile]
      have hxa2 : x = a2 := List.inj_on_of_nodup_map hnd hxst ha2 hkeys
      subst hxa2
      simp [hxfile, hxdrift]
    · intro hgoal
      rw [Bool.and_eq_true] at hgoal
      obtain ⟨hfile, hdrift⟩ := hgoal
      refine List.any_eq_true.mpr ⟨a2, List.mem_filter.mpr ⟨ha2, hfile⟩, ?_⟩
      simp only [anchorKeyMatch, hdrift, beq_iff_eq] at *
      simp [hfile]
  rw [hcond]

theorem find?_filter_not_append {α : Type} (p : α → Bool) (l : List α) (r : α)
    (hr : p r = true) :
    (l.filter (fun x => !(p x)) ++ [r]).find? p = some r := by
  induction l with
  | nil => simp [List.find?, hr]
  | cons x l ih =>
    by_cases h : p x
    · simpa [List.filter_cons, h] using ih
    · simpa [List.filter_cons, h, List.find?_cons] using ih

theorem index_single_revalidates (now file : String) (s : RawSymbol) (st : Store) :
    findAnchorPK (indexFile now file [s] st) (codeNodeId file s.symbol_name) file
        s.symbol_name =
      some ⟨codeNodeId file s.symbol_name, file, s.symbol_name,
        computeAstHash s.content, s.start_line, "VALID"⟩ := by
  simp only [indexFile, List.foldl_cons, List.foldl_nil, findAnchorPK, upsertAnchor,
    upsertNode]
  exact find?_filter_not_append _ _ _ (by simp [anchorKeyMatch])

/-- C2 (amended): running the drift detector marks an anchor of the file
`STALE` exactly when its symbol is missing from the fresh extraction or
the freshly computed hash differs from the stored one (`driftCond`), and
touches nothing else — in particular a matching hash never flips
`VALID` to `STALE`.  Indexing a symbol, by contrast, always leaves a
`VALID` anchor carrying the new hash and start line: for an unchanged
symbol this keeps the stored hash and updates the line; for a changed
symbol it re-validates with the new hash rather than flipping the anchor
to `STALE` (the flip is `check_drift`'s job); for a new symbol it
creates the fresh `VALID` anchor. -/
theorem c2_drift_marks_stale_index_revalidates :
    (∀ (st : Store) (file : String) (syms : List RawSymbol),
        (st.anchors.map anchorKey).Nodup →
        (checkDrift file syms st).1.anchors =
          st.anchors.map (fun a =>
            if a.file_path == file && driftCond (currentHashes syms) a then
              setStale a
            else a)) ∧
    (∀ (now file : String) (s : RawSymbol) (st : Store),
        findAnchorPK (indexFile now file [s] st) (codeNodeId file s.symbol_name) file
            s.symbol_name =
          some ⟨codeNodeId file s.symbol_name, file, s.symbol_name,
            computeAstHash s.content, s.start_line, "VALID"⟩) :=
  ⟨fun st file syms hnd => checkDrift_anchors st file syms hnd,
    fun now file s st => index_single_revalidates now file s st⟩

/-- Witness for C2 (amended), on a store holding one `VALID` anchor for
`function:foo` of `f.py` and an extraction in which the symbol text
changed. -/
theorem c2_drift_marks_stale_index_revalidates_witness :
    ((checkDrift "f.py" [⟨"function:foo", "x=2", 3⟩]
        ⟨[], [⟨"code:f.py:function:foo", "f.py", "function:foo", "h1", 1, "VALID"⟩],
          []⟩).1.anchors =
      (⟨[], [⟨"code:f.py:function:foo", "f.py", "function:foo", "h1", 1, "VALID"⟩],
          []⟩ : Store).anchors.map (fun a =>
        if a.file_path == "f.py" &&
            driftCond (currentHashes [⟨"function:foo", "x=2", 3⟩]) a then
          setStale a
        else a)) ∧
    (findAnchorPK
        (indexFile "t1" "f.py" [⟨"function:foo", "x=2", 3⟩]
          ⟨[], [⟨"code:f.py:function:foo", "f.py", "function:foo", "h1", 1, "VALID"⟩],
            []⟩)
        (codeNodeId "f.py" "function:foo") "f.py" "function:foo" =
      some ⟨codeNodeId "f.py" "function:foo", "f.py", "function:foo",
        computeAstHash "x=2", 3, "VALID"⟩) :=
  ⟨c2_drift_marks_stale_index_revalidates.1
      ⟨[], [⟨"code:f.py:function:foo", "f.py", "function:foo", "h1", 1, "VALID"⟩], []⟩
      "f.py" [⟨"function:foo", "x=2", 3⟩] (by decide),
    c2_drift_marks_stale_index_revalidates.2 "t1" "f.py" ⟨"function:foo", "x=2", 3⟩
      ⟨[], [⟨"code:f.py:function:foo", "f.py", "function:foo", "h1", 1, "VALID"⟩], []⟩⟩

/-- Counterexample to C2 as stated: indexing a symbol whose
non-whitespace content changed does not flip the anchor to `STALE` —
`index_file` upserts the anchor, which resets the status to `VALID` with
the new hash.  Here the stored anchor for `function:foo` carries the
hash of `x=1` and is `VALID`; after indexing the changed text `x=2` the
only anchor of the store is still `VALID`. -/
theorem c2_index_changed_symbol_stays_valid :
    ((indexFile "t1" "f.py" [⟨"function:foo", "x=2", 1⟩]
        ⟨[⟨"code:f.py:function:foo", "CODE_BLOCK", "x=1", none, some "t0"⟩],
          [⟨"code:f.py:function:foo", "f.py", "function:foo", computeAstHash "x=1", 1,
            "VALID"⟩],
          []⟩).anchors.map (fun a => a.status)) = ["VALID"] := by
  rfl

/-! ## Serialization round trip (C4) -/

theorem nodeRecsOf_map_nodeRec (f : NodeRow → SerNode) (l : List NodeRow) :
    nodeRecsOf (l.map (fun n => SerRec.nodeRec (f n))) = l.map f := by
  induction l with
  | nil => rfl
  | cons a l ih => simpa [nodeRecsOf, List.filterMap_cons] using ih

theorem nodeRecsOf_map_edgeRec (f : EdgeRow → SerEdge) (l : List EdgeRow) :
    nodeRecsOf (l.map (fun e => SerRec.edgeRec (f e))) = [] := by
  induction l with
  | nil => rfl
  | cons a l ih => simp only [List.map_cons, nodeRecsOf, List.filterMap_cons]; exact ih

theorem edgeRecsOf_map_nodeRec (f : NodeRow → SerNode) (l : List NodeRow) :
    edgeRecsOf (l.map (fun n => SerRec.nodeRec (f n))) = [] := by
  induction l with
  | nil => rfl
  | cons a l ih => simp only [List.map_cons, edgeRecsOf, List.filterMap_cons]; exact ih

theorem edgeRecsOf_map_edgeRec (f : EdgeRow → SerEdge) (l : List EdgeRow) :
    edgeRecsOf (l.map (fun e => SerRec.edgeRec (f e))) = l.map f := by
  induction l with
  | nil => rfl
  | cons a l ih => simpa [edgeRecsOf, List.filterMap_cons] using ih

theorem nodeRecsOf_append (l1 l2 : List SerRec) :
    nodeRecsOf (l1 ++ l2) = nodeRecsOf l1 ++ nodeRecsOf l2 :=
  List.filterMap_append l1 l2 _

theorem edgeRecsOf_append (l1 l2 : List SerRec) :
    edgeRecsOf (l1 ++ l2) = edgeRecsOf l1 ++ edgeRecsOf l2 :=
  List.filterMap_append l1 l2 _

theorem nodeRecsOf_serializeRecs (st : Store) :
    nodeRecsOf (serializeRecs st) = (st.nodes.insertionSort nodeLe).map serNodeOf := by
  unfold serializeRecs
  rw [nodeRecsOf_append, nodeRecsOf_map_nodeRec, nodeRecsOf_map_edgeRec,
    List.append_nil]

theorem edgeRecsOf_serializeRecs (st : Store) :
    edgeRecsOf (serializeRecs st) = (st.edges.insertionSort edgeLe).map serEdgeOf := by
  unfold serializeRecs
  rw [edgeRecsOf_append, edgeRecsOf_map_nodeRec, edgeRecsOf_map_edgeRec,
    List.nil_append]

theorem foldl_dictInsert_fresh :
    ∀ (rs acc : List SerNode), (∀ r ∈ rs, ∀ x ∈ acc, (x.id == r.id) = false) →
      (rs.map (fun r => r.id)).Nodup → rs.foldl dictInsert acc = acc ++ rs := by
  intro rs
  induction rs with
  | nil => intro acc _ _; simp
  | cons r rs ih =>
    intro acc hfresh hnd
    rw [List.foldl_cons]
    have hany : acc.any (fun x => x.id == r.id) = false := by
      rw [Bool.eq_false_iff]
      intro hcontra
      obtain ⟨x, hx, hpx⟩ := List.any_eq_true.mp hcontra
      rw [hfresh r (by simp) x hx] at hpx
      exact Bool.false_ne_true hpx
    have hstep : dictInsert acc r = acc ++ [r] := by simp [dictInsert, hany]
    rw [hstep, ih (acc ++ [r]) ?hf ?hn]
    · simp
    case hf =>
      intro r2 hr2 x hx
      rcases List.mem_append.mp hx with hx | hx
      · exact hfresh r2 (by simp [hr2]) x hx
      · have hxr : x = r := by simpa using hx
        have hnotin := (List.nodup_cons.mp hnd).1
        have hne : x.id ≠ r2.id := by
          intro heq
          apply hnotin
          have hmem : r2.id ∈ rs.map (fun s => s.id) :=
            List.mem_map_of_mem (fun s => s.id) hr2
          simpa [← hxr, heq] using hmem
        simpa using hne
    case hn => exact (List.nodup_cons.mp hnd).2

theorem foldl_mergeNodeRec_fresh :
    ∀ (rs : List SerNode) (st : Store),
      (∀ r ∈ rs, lookupNode st r.id = none) → (rs.map (fun r => r.id)).Nodup →
      rs.foldl mergeNodeRec st = { st with nodes := st.nodes ++ rs.map nodeOfRec } := by
  intro rs
  induction rs with
  | nil => intro st _ _; simp
  | cons r rs ih =>
    intro st hfresh hnd
    rw [List.foldl_cons]
    have h1 : mergeNodeRec st r = { st with nodes := st.nodes ++ [nodeOfRec r] } := by
      have h0 := hfresh r (by simp)
      simp [mergeNodeRec, h0, nodeOfRec]
    rw [h1, ih { st with nodes := st.nodes ++ [nodeOfRec r] } ?hf ?hn]
    · simp
    case hf =>
      intro r2 hr2
      have hno : st.nodes.find? (fun n => n.id == r2.id) = none :=
        hfresh r2 (by simp [hr2])
      have hne : (r.id == r2.id) = false := by
        have hnotin := (List.nodup_cons.mp hnd).1
        have hne2 : r.id ≠ r2.id := by
          intro heq
          apply hnotin
          have hmem : r2.id ∈ rs.map (fun s => s.id) :=
            List.mem_map_of_mem (fun s => s.id) hr2
          simpa [heq] using hmem
        simpa using hne2
      simp [lookupNode, List.find?_append, hno, nodeOfRec, hne]
    case hn => exact (List.nodup_cons.mp hnd).2

theorem foldl_mergeEdgeRec_fresh :
    ∀ (rs : List SerEdge) (st : Store),
      (∀ r ∈ rs, edgePresent st r.source_id r.target_id r.relation = false) →
      (rs.map (fun r => (r.source_id, r.target_id, r.relation))).Nodup →
      rs.foldl mergeEdgeRec st = { st with edges := st.edges ++ rs.map edgeOfRec } := by
  intro rs
  induction rs with
  | nil => intro st _ _; simp
  | cons r rs ih =>
    intro st hfresh hnd
    rw [List.foldl_cons]
    have h1 : mergeEdgeRec st r = { st with edges := st.edges ++ [edgeOfRec r] } := by
      have h0 := hfresh r (by simp)
      simp [mergeEdgeRec, h0, edgeOfRec]
    rw [h1, ih { st with edges := st.edges ++ [edgeOfRec r] } ?hf ?hn]
    · simp
    case hf =>
      intro r2 hr2
      have hno : edgePresent st r2.source_id r2.target_id r2.relation = false :=
        hfresh r2 (by simp [hr2])
      have hkeyne : (r.source_id, r.target_id, r.relation) ≠
          (r2.source_id, r2.target_id, r2.relation) := by
        have hnotin := (List.nodup_cons.mp hnd).1
        intro heq
        apply hnotin
        have hmem : (r2.source_id, r2.target_id, r2.relation) ∈
            rs.map (fun s => (s.source_id, s.target_id, s.relation)) :=
          List.mem_map_of_mem (fun s => (s.source_id, s.target_id, s.relation)) hr2
        simpa [heq] using hmem
      have hpe : ((edgeOfRec r).source_id == r2.source_id &&
          (edgeOfRec r).target_id == r2.target_id &&
          (edgeOfRec r).relation == r2.relation) = false := by
        rw [Bool.eq_false_iff]
        intro hcontra
        rw [Bool.and_eq_true, Bool.and_eq_true] at hcontra
        obtain ⟨⟨h1, h2⟩, h3⟩ := hcontra
        simp only [edgeOfRec, beq_iff_eq] at h1 h2 h3
        exact hkeyne (by rw [h1, h2, h3])
      unfold edgePresent at hno ⊢
      simp [List.any_append, hno, hpe]
    case hn => exact (List.nodup_cons.mp hnd).2

theorem edgeOfRec_serEdgeOf (e : EdgeRow) : edgeOfRec (serEdgeOf e) = e := by
  cases e; rfl

theorem serNodeOf_reinserted (n : NodeRow) :
    serNodeOf (nodeOfRec (serNodeOf n)) = serNodeOf n := by
  cases n; rfl

theorem deserializeMerge_fresh_parts (A : List SerNode) (B : List SerEdge)
    (hA : (A.map (fun r => r.id)).Nodup)
    (hB : (B.map (fun r => (r.source_id, r.target_id, r.relation))).Nodup) :
    B.foldl mergeEdgeRec ((dictById A).foldl mergeNodeRec emptyStore) =
      ⟨A.map nodeOfRec, [], B.map edgeOfRec⟩ := by
  have hdict : dictById A = A := by
    unfold dictById
    rw [foldl_dictInsert_fresh A [] (by intro r _ x hx; simp at hx) hA]
    exact List.nil_append A
  rw [hdict]
  have hnodes := foldl_mergeNodeRec_fresh A emptyStore (fun _ _ => rfl) hA
  rw [hnodes]
  have hedges := foldl_mergeEdgeRec_fresh B
    { emptyStore with nodes := emptyStore.nodes ++ A.map nodeOfRec }
    (fun _ _ => rfl) hB
  rw [hedges]
  rfl

theorem deserializeMerge_empty (st : Store)
    (hn : (st.nodes.map (fun n => n.id)).Nodup)
    (he : (st.edges.map edgeKey).Nodup) :
    deserializeMerge emptyStore (serializeRecs st) =
      ⟨((st.nodes.insertionSort nodeLe).map serNodeOf).map nodeOfRec, [],
        ((st.edges.insertionSort edgeLe).map serEdgeOf).map edgeOfRec⟩ := by
  have hsortn : ((st.nodes.insertionSort nodeLe).map (fun n => n.id)).Nodup :=
    (((List.perm_insertionSort nodeLe st.nodes).map (fun n => n.id)).nodup_iff).mpr hn
  have hsorte : ((st.edges.insertionSort edgeLe).map edgeKey).Nodup :=
    (((List.perm_insertionSort edgeLe st.edges).map edgeKey).nodup_iff).mpr he
  have hrecn : (((st.nodes.insertionSort nodeLe).map serNodeOf).map
      (fun r => r.id)).Nodup := by
    rw [List.map_map]
    exact hsortn
  have hrece : (((st.edges.insertionSort edgeLe).map serEdgeOf).map
      (fun r => (r.source_id, r.target_id, r.relation))).Nodup := by
    rw [List.map_map]
    exact hsorte
  unfold deserializeMerge
  rw [nodeRecsOf_serializeRecs, edgeRecsOf_serializeRecs]
  exact deserializeMerge_fresh_parts _ _ hrecn hrece

/-- C4: serializing, merging into an empty store, and serializing again
reproduces the byte stream: node records are emitted sorted by id, edge
records sorted by `(source_id, target_id, relation)`, so re-serializing
an unchanged (or freshly deserialized) store is byte-identical. -/
theorem c4_serialize_roundtrip (st : Store)
    (hn : (st.nodes.map (fun n => n.id)).Nodup)
    (he : (st.edges.map edgeKey).Nodup)
    (_hts : ∀ n ∈ st.nodes, n.created_at ≠ none) :
    serializeLines (deserializeMerge emptyStore (serializeRecs st)) =
        serializeLines st ∧
      (nodeRecsOf (serializeRecs st)).Pairwise (fun a b => a.id ≤ b.id) ∧
      (edgeRecsOf (serializeRecs st)).Pairwise serEdgeLe := by
  refine ⟨?_, ?_, ?_⟩
  · unfold serializeLines
    congr 1
    rw [deserializeMerge_empty st hn he]
    unfold serializeRecs
    dsimp only
    congr 1
    · rw [List.map_map]
      have hsorted : List.Sorted nodeLe
          ((st.nodes.insertionSort nodeLe).map (nodeOfRec ∘ serNodeOf)) :=
        List.pairwise_map.mpr
          ((List.sorted_insertionSort nodeLe st.nodes).imp (fun hab => hab))
      rw [List.Sorted.insertionSort_eq hsorted, List.map_map]
      apply List.map_congr_left
      intro n _
      exact congrArg SerRec.nodeRec (serNodeOf_reinserted n)
    · rw [List.map_map]
      have hid : (st.edges.insertionSort edgeLe).map (edgeOfRec ∘ serEdgeOf) =
          st.edges.insertionSort edgeLe := by
        rw [show (edgeOfRec ∘ serEdgeOf) = id from funext (fun e => edgeOfRec_serEdgeOf e)]
        exact List.map_id _
      rw [hid, List.Sorted.insertionSort_eq (List.sorted_insertionSort edgeLe st.edges)]
  · rw [nodeRecsOf_serializeRecs]
    exact List.Pairwise.map _ (fun a b hab => hab)
      (List.sorted_insertionSort nodeLe st.nodes)
  · rw [edgeRecsOf_serializeRecs]
    exact List.Pairwise.map _ (fun a b hab => hab)
      (List.sorted_insertionSort edgeLe st.edges)

/-- Witness for C4, on a concrete unsorted two-node, one-edge store. -/
theorem c4_serialize_roundtrip_witness :
    serializeLines (deserializeMerge emptyStore (serializeRecs roundTripStore)) =
        serializeLines roundTripStore ∧
      (nodeRecsOf (serializeRecs roundTripStore)).Pairwise (fun a b => a.id ≤ b.id) ∧
      (edgeRecsOf (serializeRecs roundTripStore)).Pairwise serEdgeLe :=
  c4_serialize_roundtrip roundTripStore (by decide) (by decide) (by decide)

end Shadowgraph
